import Mathlib

/-!
Shallow embedding of `solution.py`: color-frequency statistics over a
`Counter`, a recursive binary search, a Fibonacci summer, and a
sliding-window pattern checker, together with proofs of their
specification properties.

Python data is modelled as follows: Python `str` is `String`, Python
`int` is `Int` (counts, which are provably non-negative, are `Nat`),
the exact Python `/` on the small rationals arising here is `ℚ`, a Python
function that raises on some input is an `Option`-valued function that is
`none` there, and a `Counter` built from a list `colors` is the counting
function `fun c => colors.count c` together with its key list in
first-insertion order (`counterKeys`), which is how a Python `dict`
iterates.
-/

/-- The Python method `color.strip()` (used on each raw token before
`_clean_colors`): remove leading and trailing whitespace characters. -/
def str_strip (s : String) : String :=
  ⟨((s.data.dropWhile Char.isWhitespace).reverse.dropWhile Char.isWhitespace).reverse⟩

/-- The Python method `target_color.upper()`: map each character to upper case. -/
def str_upper (s : String) : String :=
  ⟨s.data.map Char.toUpper⟩

/-- `BincomPythonTest._clean_colors`: fix the two known typos
(`"BLEW"` to `"BLUE"`, `"ARSH"` to `"ASH"`) and drop empty strings,
keeping the order of the remaining tokens. The Python `for` loop that
appends to `cleaned_colors` is rendered as structural recursion. -/
def _clean_colors : List String → List String
  | [] => []
  | color :: rest =>
    let color := if color = "BLEW" then "BLUE"
                 else if color = "ARSH" then "ASH" else color
    if color = "" then _clean_colors rest else color :: _clean_colors rest

/-- The normalization pipeline of `extract_colors_from_hardcoded` /
`extract_colors_from_file`: each raw token is stripped
(`color.strip() for color in colors_str.split(',')`) and the stripped
tokens are passed to `_clean_colors`. -/
def normalize_colors (tokens : List String) : List String :=
  _clean_colors (tokens.map str_strip)

/-- The key list of `Counter(colors)` in Python iteration order:
first occurrence first, duplicates ignored. -/
def counterKeys (colors : List String) : List String :=
  colors.foldl (fun acc c => if c ∈ acc then acc else acc ++ [c]) []

/-- `BincomPythonTest.get_most_common_color`:
`self.color_counter.most_common(1)[0]`. `most_common` sorts the counter
items by count, descending and stable, so `most_common(1)[0]` is the
first key (in insertion order) attaining the maximal count, paired with
that count; on an empty counter the `[0]` raises, modelled as `none`. -/
def get_most_common_color (colors : List String) : Option (String × Nat) :=
  ((counterKeys colors).argmax (fun c => colors.count c)).map
    (fun c => (c, colors.count c))

/-- The ordering Python uses to `sort()` a list of strings:
lexicographic comparison, stated on the underlying character lists
(propositionally the same relation as the Mathlib `≤` on `String`,
by `String.le_iff_toList_le`, but kernel-reducible). -/
def str_le (s t : String) : Prop :=
  s.data ≤ t.data

instance : DecidableRel str_le :=
  fun s t => inferInstanceAs (Decidable (s.data ≤ t.data))

/-- `BincomPythonTest.get_median_color`: expand the counter back into a
list with each color repeated by its frequency (in key insertion order),
sort lexicographically, and take the element at index `n // 2`; on an
empty counter the indexing raises, modelled as `none`. -/
def get_median_color (colors : List String) : Option String :=
  let expanded := (counterKeys colors).flatMap
    (fun color => List.replicate (colors.count color) color)
  let sorted := expanded.insertionSort str_le
  sorted[sorted.length / 2]?

/-- The Python function `statistics.variance`: the sample variance
`Σ (x - mean)² / (n - 1)` with `mean = Σ x / n`. -/
def statistics_variance (data : List ℚ) : ℚ :=
  let xbar := data.sum / data.length
  ((data.map (fun x => (x - xbar) ^ 2)).sum) / (data.length - 1)

/-- `BincomPythonTest.get_color_variance`:
`statistics.variance(frequencies) if len(frequencies) > 1 else 0` where
`frequencies = list(self.color_counter.values())`. -/
def get_color_variance (colors : List String) : ℚ :=
  let frequencies := (counterKeys colors).map (fun c => (colors.count c : ℚ))
  if frequencies.length > 1 then statistics_variance frequencies else 0

/-- `BincomPythonTest.get_color_probability`:
`self.color_counter.get(target_color.upper(), 0) / len(self.colors)`. -/
def get_color_probability (colors : List String) (target_color : String) : ℚ :=
  (colors.count (str_upper target_color) : ℚ) / (colors.length : ℚ)

/-- `BincomPythonTest.recursive_search`: recursive binary search on the
inclusive index range `[start, stop]` (the Python parameter `end` is a
Lean keyword). `//` on non-negative operands is `Int` division; list
indexing, always in bounds on the calls reachable from the default entry
point, is modelled totally with `getD`. -/
def recursive_search (numbers : List Int) (target : Int) (start : Int) (stop : Int) : Int :=
  if start > stop then -1
  else
    let mid := (start + stop) / 2
    if numbers.getD mid.toNat 0 = target then mid
    else if numbers.getD mid.toNat 0 > target then
      recursive_search numbers target start (mid - 1)
    else
      recursive_search numbers target (mid + 1) stop
termination_by (stop + 1 - start).toNat
decreasing_by all_goals omega

/-- `recursive_search` at its default arguments `start=0`,
`end=len(numbers)-1`. -/
def recursive_search_default (numbers : List Int) (target : Int) : Int :=
  recursive_search numbers target 0 ((numbers.length : Int) - 1)

/-- The loop `for i in range(2, n+1): a, b = b, a + b; total_sum += b`
of `sum_fibonacci`, as a function of the remaining iteration count
applied to the state `(a, b, total_sum)`. -/
def fibLoop : Nat → Nat × Nat × Nat → Nat × Nat × Nat
  | 0, s => s
  | k + 1, (a, b, total) => fibLoop k (b, a + b, total + (a + b))

/-- `BincomPythonTest.sum_fibonacci`: returns `0` for `n <= 0`,
otherwise runs the iterative loop starting from `a, b = 0, 1` and
`total_sum = 1`; the loop body executes `n - 1` times. -/
def sum_fibonacci (n : Int) : Int :=
  if n ≤ 0 then 0 else ((fibLoop (n - 1).toNat (0, 1, 1)).2.2 : Int)

/-- `sum_fibonacci` at its default argument `n=50`, as invoked by
`run_analysis`. -/
def sum_fibonacci_default : Int :=
  sum_fibonacci 50

/-- The verification loop of `analyze_binary_sequence_puzzle` as a
function of the scanned string: one output character per window start
`i in range(len(s) - 2)` (`'1'` exactly when `s[i:i+3] == "111"`),
then two trailing `'0'` characters appended. -/
def pattern_check (s : String) : String :=
  ⟨((List.range (s.data.length - 2)).map
      (fun i => if (s.data.drop i).take 3 = ['1', '1', '1'] then '1' else '0'))
    ++ ['0', '0']⟩

/-- The hard-coded `input_sequence` of `analyze_binary_sequence_puzzle`. -/
def input_sequence : String :=
  "0101101011101011011101101000111"

/-- The hard-coded expected `output_sequence` of
`analyze_binary_sequence_puzzle`. -/
def output_sequence : String :=
  "0000000000100000000100000000001"

/-- The comparison `calculated_output == output_sequence` printed by
`analyze_binary_sequence_puzzle`. -/
def analyze_binary_sequence_puzzle_matches : Bool :=
  pattern_check input_sequence == output_sequence

instance : IsTotal String str_le :=
  ⟨fun a b => le_total a.data b.data⟩

instance : IsTrans String str_le :=
  ⟨fun _ _ _ hab hbc => le_trans hab hbc⟩

instance : IsAntisymm String str_le :=
  ⟨fun a b hab hba => by
    cases a; cases b
    exact congrArg String.mk (le_antisymm hab hba)⟩

theorem _clean_colors_cons (color : String) (rest : List String) :
    _clean_colors (color :: rest) =
      (let c := if color = "BLEW" then "BLUE"
                else if color = "ARSH" then "ASH" else color
       if c = "" then _clean_colors rest else c :: _clean_colors rest) :=
  rfl

/-- Claim C5: the normalization pipeline strips each raw token, rewrites
exactly `"BLEW"` to `"BLUE"` and `"ARSH"` to `"ASH"`, discards tokens
that are empty after stripping, and passes every other token through
unchanged (case-sensitively), preserving the order of the kept tokens;
being a total function, it raises no errors. -/
theorem normalize_colors_spec (tokens : List String) :
    normalize_colors tokens = tokens.filterMap (fun t =>
      let s := str_strip t
      if s = "BLEW" then some "BLUE"
      else if s = "ARSH" then some "ASH"
      else if s = "" then none
      else some s) := by
  induction tokens with
  | nil => rfl
  | cons t rest ih =>
    show _clean_colors (str_strip t :: rest.map str_strip) = _
    rw [_clean_colors_cons, List.filterMap_cons]
    by_cases h1 : str_strip t = "BLEW"
    · simpa [h1] using ih
    · by_cases h2 : str_strip t = "ARSH"
      · simpa [h1, h2] using ih
      · by_cases h3 : str_strip t = ""
        · simpa [h1, h2, h3] using ih
        · simpa [h1, h2, h3] using ih

/-- Claim C3: on the hard-coded input the computed pattern string is
`"0000000010000000010000000000100"`, with its `'1'` characters exactly
at indices 8, 17 and 28 (the start of each `"111"` window), while the
hard-coded expected output has its `'1'` characters exactly at indices
10, 19 and 30; the equality comparison in the demo therefore evaluates to
`false`. -/
theorem analyze_binary_sequence_puzzle_mismatch :
    pattern_check input_sequence = "0000000010000000010000000000100" ∧
    (∀ i < 31, ((pattern_check input_sequence).data.getD i 'x' = '1' ↔
      i = 8 ∨ i = 17 ∨ i = 28)) ∧
    (∀ i < 31, (output_sequence.data.getD i 'x' = '1' ↔
      i = 10 ∨ i = 19 ∨ i = 30)) ∧
    analyze_binary_sequence_puzzle_matches = false := by
  refine ⟨by decide, by decide, by decide, by decide⟩

/-- Claim C2, counterexample: the pattern checker does not return a
string of the same length as the input for every input; on the one-character bit
string `"0"` the output is `"00"`, of length 2. -/
theorem pattern_check_not_length_preserving :
    ¬ (pattern_check "0").length = ("0" : String).length := by
  decide

/-- Claim C2, amended with the length bound the counterexample forces:
for every input bit string of length at least 2, the output has the
input's length, position `i` carries `'1'` exactly when the 3-character
window starting at `i` is `"111"` and `'0'` otherwise (for every `i` up
to `length - 3`), and the final two positions are `'0'`; in particular
`pattern_check "111" = "100"`. -/
theorem pattern_check_spec (s : String) (hs : 2 ≤ s.length) :
    (pattern_check s).length = s.length ∧
    (∀ i, i + 2 < s.length →
      (pattern_check s).data.getD i 'x' =
        (if (s.data.drop i).take 3 = ['1', '1', '1'] then '1' else '0')) ∧
    (pattern_check s).data.getD (s.length - 2) 'x' = '0' ∧
    (pattern_check s).data.getD (s.length - 1) 'x' = '0' ∧
    pattern_check "111" = "100" := by
  have hlen : s.length = s.data.length := rfl
  have hbody : ((List.range (s.data.length - 2)).map
      (fun i => if (s.data.drop i).take 3 = ['1', '1', '1'] then '1' else '0')).length
        = s.data.length - 2 := by
    rw [List.length_map, List.length_range]
  refine ⟨?_, ?_, ?_, ?_, by decide⟩
  · show (((List.range (s.data.length - 2)).map _) ++ ['0', '0']).length = _
    rw [List.length_append, hbody]
    simp only [List.length_cons, List.length_nil]
    omega
  · intro i hi
    show (((List.range (s.data.length - 2)).map _) ++ ['0', '0']).getD i 'x' = _
    rw [List.getD_append _ _ _ _ (by omega), List.getD_eq_getElem _ _ (by omega),
      List.getElem_map, List.getElem_range]
  · show (((List.range (s.data.length - 2)).map _) ++ ['0', '0']).getD (s.length - 2) 'x' = _
    rw [List.getD_append_right _ _ _ _ (by omega)]
    rw [hbody, hlen]
    have : s.data.length - 2 - (s.data.length - 2) = 0 := by omega
    rw [this]
    rfl
  · show (((List.range (s.data.length - 2)).map _) ++ ['0', '0']).getD (s.length - 1) 'x' = _
    rw [List.getD_append_right _ _ _ _ (by omega)]
    rw [hbody, hlen]
    have : s.data.length - 1 - (s.data.length - 2) = 1 := by omega
    rw [this]
    rfl

/-- Witness for `pattern_check_spec`: its hypothesis holds at the
concrete input `"111"`, where the computed output is `"100"`. -/
theorem pattern_check_spec_witness :
    2 ≤ ("111" : String).length ∧ (pattern_check "111").length = ("111" : String).length :=
  ⟨by decide, (pattern_check_spec "111" (by decide)).1⟩

theorem foldl_insert_nodup (l : List String) :
    ∀ acc : List String, acc.Nodup →
      (l.foldl (fun acc c => if c ∈ acc then acc else acc ++ [c]) acc).Nodup := by
  induction l with
  | nil => intro acc h; simpa using h
  | cons c l ih =>
    intro acc h
    rw [List.foldl_cons]
    by_cases hc : c ∈ acc
    · rw [if_pos hc]; exact ih acc h
    · rw [if_neg hc]
      refine ih _ ?_
      simp [List.nodup_append, h, List.disjoint_singleton, hc]

theorem mem_foldl_insert (l : List String) (x : String) :
    ∀ acc : List String,
      (x ∈ l.foldl (fun acc c => if c ∈ acc then acc else acc ++ [c]) acc ↔
        x ∈ acc ∨ x ∈ l) := by
  induction l with
  | nil => intro acc; simp
  | cons c l ih =>
    intro acc
    rw [List.foldl_cons]
    by_cases hc : c ∈ acc
    · rw [if_pos hc, ih]
      constructor
      · rintro (h | h)
        · exact Or.inl h
        · exact Or.inr (List.mem_cons_of_mem _ h)
      · rintro (h | h)
        · exact Or.inl h
        · rcases List.mem_cons.1 h with rfl | h
          · exact Or.inl hc
          · exact Or.inr h
    · rw [if_neg hc, ih]
      simp only [List.mem_append, List.mem_singleton, List.mem_cons]
      tauto

theorem counterKeys_nodup (colors : List String) : (counterKeys colors).Nodup :=
  foldl_insert_nodup colors [] List.nodup_nil

theorem mem_counterKeys {colors : List String} {x : String} :
    x ∈ counterKeys colors ↔ x ∈ colors := by
  have := mem_foldl_insert colors x []
  simpa [counterKeys] using this

theorem counterKeys_perm_dedup (colors : List String) :
    (counterKeys colors).Perm colors.dedup :=
  (List.perm_ext_iff_of_nodup (counterKeys_nodup colors) (List.nodup_dedup colors)).2
    (fun a => by rw [mem_counterKeys, List.mem_dedup])

/-- Claim C4: the frequency table built by `load_data` from a token list
has pairwise distinct keys, every count it stores is a non-negative
integer, and the counts over the key list sum to the length of the token
list. -/
theorem counter_invariants (colors : List String) :
    (counterKeys colors).Nodup ∧
    (∀ c, 0 ≤ colors.count c) ∧
    ((counterKeys colors).map (fun c => colors.count c)).sum = colors.length := by
  refine ⟨counterKeys_nodup colors, fun c => Nat.zero_le _, ?_⟩
  rw [((counterKeys_perm_dedup colors).map (fun c => colors.count c)).sum_eq]
  exact List.sum_map_count_dedup_eq_length colors

/-- Claim C7: on a non-empty frequency table the mode operation returns
a pair `(t, n)` where the table maps `t` to `n`, `n` is the maximum
count, and `t` is deterministically the first-encountered key (in the
insertion order of the table) among those attaining the maximum; on the
empty table it fails rather than returning a value. -/
theorem get_most_common_color_spec (colors : List String) :
    get_most_common_color [] = none ∧
    (colors ≠ [] → ∃ t n, get_most_common_color colors = some (t, n) ∧
      colors.count t = n ∧
      (∀ c ∈ colors, colors.count c ≤ n) ∧
      (∀ c ∈ counterKeys colors, colors.count c = n →
        (counterKeys colors).indexOf t ≤ (counterKeys colors).indexOf c)) := by
  refine ⟨rfl, fun hne => ?_⟩
  have hk : counterKeys colors ≠ [] := by
    obtain ⟨c, hc⟩ := List.exists_mem_of_ne_nil colors hne
    intro h
    have hmem := mem_counterKeys.2 hc
    rw [h] at hmem
    exact List.not_mem_nil c hmem
  obtain ⟨m, hm⟩ : ∃ m, (counterKeys colors).argmax (fun c => colors.count c) = some m := by
    cases h : (counterKeys colors).argmax (fun c => colors.count c) with
    | none => exact absurd (List.argmax_eq_none.1 h) hk
    | some m => exact ⟨m, rfl⟩
  refine ⟨m, colors.count m, ?_, rfl, ?_, ?_⟩
  · simp [get_most_common_color, hm]
  · intro c hc
    exact List.le_of_mem_argmax (mem_counterKeys.2 hc) (Option.mem_def.2 hm)
  · intro c hc hcount
    exact List.index_of_argmax (Option.mem_def.2 hm) hc (le_of_eq hcount.symm)

/-- Witness for `get_most_common_color_spec`: on the tokens
`[A, A, B]` the mode is `(A, 2)`. -/
theorem get_most_common_color_spec_witness :
    get_most_common_color ["A", "A", "B"] = some ("A", 2) ∧
    (∃ t n, get_most_common_color ["A", "A", "B"] = some (t, n) ∧
      List.count t ["A", "A", "B"] = n ∧
      (∀ c ∈ ["A", "A", "B"], List.count c ["A", "A", "B"] ≤ n) ∧
      (∀ c ∈ counterKeys ["A", "A", "B"], List.count c ["A", "A", "B"] = n →
        (counterKeys ["A", "A", "B"]).indexOf t ≤ (counterKeys ["A", "A", "B"]).indexOf c)) :=
  ⟨rfl, (get_most_common_color_spec ["A", "A", "B"]).2 (by decide)⟩

theorem count_flatMap_replicate (colors : List String) (x : String) :
    ∀ ks : List String, ks.Nodup →
      List.count x (ks.flatMap (fun c => List.replicate (colors.count c) c)) =
        if x ∈ ks then colors.count x else 0 := by
  intro ks
  induction ks with
  | nil => simp
  | cons c ks ih =>
    intro hnd
    have hnd' := List.nodup_cons.1 hnd
    rw [List.flatMap_cons, List.count_append, List.count_replicate, ih hnd'.2]
    by_cases hxc : x = c
    · subst hxc
      simp [hnd'.1]
    · simp [hxc, Ne.symm hxc]

theorem expanded_perm (colors : List String) :
    ((counterKeys colors).flatMap
      (fun c => List.replicate (colors.count c) c)).Perm colors := by
  rw [List.perm_iff_count]
  intro x
  rw [count_flatMap_replicate colors x _ (counterKeys_nodup colors)]
  by_cases hx : x ∈ counterKeys colors
  · rw [if_pos hx]
  · rw [if_neg hx]
    exact (List.count_eq_zero.2 (fun h => hx (mem_counterKeys.2 h))).symm

/-- Claim C8: on a non-empty frequency table the median operation
returns the element at 0-based index `⌊length / 2⌋` of the list obtained
by repeating each key by its count and sorting lexicographically (which,
that expansion being a permutation of the ingested tokens, is also the
element at that index of the lexicographically sorted token list); on
the empty table it fails. -/
theorem get_median_color_spec (colors : List String) :
    get_median_color [] = none ∧
    (colors ≠ [] → ∃ m, get_median_color colors = some m ∧
      m = (((counterKeys colors).flatMap
          (fun c => List.replicate (colors.count c) c)).insertionSort str_le).getD
            (colors.length / 2) "" ∧
      m = (colors.insertionSort str_le).getD (colors.length / 2) "") := by
  refine ⟨rfl, fun hne => ?_⟩
  have hperm := expanded_perm colors
  have hsort_perm :
      (((counterKeys colors).flatMap
        (fun c => List.replicate (colors.count c) c)).insertionSort str_le).Perm colors :=
    (List.perm_insertionSort str_le _).trans hperm
  have hlen :
      (((counterKeys colors).flatMap
        (fun c => List.replicate (colors.count c) c)).insertionSort str_le).length
        = colors.length := hsort_perm.length_eq
  have hpos : 0 < colors.length := List.length_pos.2 hne
  have hidx : colors.length / 2 <
      (((counterKeys colors).flatMap
        (fun c => List.replicate (colors.count c) c)).insertionSort str_le).length := by
    rw [hlen]
    exact Nat.div_lt_self hpos one_lt_two
  refine ⟨(((counterKeys colors).flatMap
      (fun c => List.replicate (colors.count c) c)).insertionSort str_le).getD
        (colors.length / 2) "", ?_, rfl, ?_⟩
  · show (((counterKeys colors).flatMap
        (fun c => List.replicate (colors.count c) c)).insertionSort str_le)[
          (((counterKeys colors).flatMap
            (fun c => List.replicate (colors.count c) c)).insertionSort str_le).length / 2]? = _
    rw [hlen, List.getD_eq_getElem _ _ hidx]
    exact List.getElem?_eq_getElem hidx
  · have heq : ((counterKeys colors).flatMap
        (fun c => List.replicate (colors.count c) c)).insertionSort str_le
          = colors.insertionSort str_le :=
      List.eq_of_perm_of_sorted
        (hsort_perm.trans (List.perm_insertionSort str_le colors).symm)
        (List.sorted_insertionSort str_le _) (List.sorted_insertionSort str_le colors)
    rw [heq]

/-- Witness for `get_median_color_spec`: on the tokens `[A, A, B, B, B]`
the expanded sorted list is itself and the median, at index 2, is
`"B"`. -/
theorem get_median_color_spec_witness :
    get_median_color ["A", "A", "B", "B", "B"] = some "B" ∧
    (∃ m, get_median_color ["A", "A", "B", "B", "B"] = some m ∧
      m = (((counterKeys ["A", "A", "B", "B", "B"]).flatMap
          (fun c => List.replicate (List.count c ["A", "A", "B", "B", "B"]) c)).insertionSort
            str_le).getD (List.length ["A", "A", "B", "B", "B"] / 2) "" ∧
      m = (List.insertionSort str_le ["A", "A", "B", "B", "B"]).getD
            (List.length ["A", "A", "B", "B", "B"] / 2) "") :=
  ⟨rfl, (get_median_color_spec ["A", "A", "B", "B", "B"]).2 (by decide)⟩

/-- Claim C9: on a non-empty token list with total count `T`, the
probability operation returns `count(upper-cased target) / T` — the
lookup upper-cases its input — and returns `0` when the upper-cased
target is absent from the table. -/
theorem get_color_probability_spec (colors : List String) (target_color : String) :
    (colors ≠ [] → get_color_probability colors target_color =
      (colors.count (str_upper target_color) : ℚ) / (colors.length : ℚ)) ∧
    (colors ≠ [] → str_upper target_color ∉ colors →
      get_color_probability colors target_color = 0) := by
  refine ⟨fun _ => rfl, fun _ habs => ?_⟩
  unfold get_color_probability
  rw [List.count_eq_zero.2 habs]
  simp

/-- Witness for `get_color_probability_spec`: in a table of 10 tokens
with 3 `RED`, the probability of `"red"` is `0.3` (the lookup is
case-insensitive) and the probability of the absent `"PURPLE"` is 0. -/
theorem get_color_probability_spec_witness :
    get_color_probability
      ["RED", "RED", "RED", "BLUE", "BLUE", "BLUE", "BLUE", "BLUE", "BLUE", "BLUE"]
      "red" = 0.3 ∧
    get_color_probability
      ["RED", "RED", "RED", "BLUE", "BLUE", "BLUE", "BLUE", "BLUE", "BLUE", "BLUE"]
      "PURPLE" = 0 := by
  constructor
  · have h := (get_color_probability_spec
      ["RED", "RED", "RED", "BLUE", "BLUE", "BLUE", "BLUE", "BLUE", "BLUE", "BLUE"]
      "red").1 (by decide)
    rw [h]
    have h1 : str_upper "red" = "RED" := rfl
    have h2 : List.count "RED"
        ["RED", "RED", "RED", "BLUE", "BLUE", "BLUE", "BLUE", "BLUE", "BLUE", "BLUE"] = 3 := rfl
    have h3 : List.length
        ["RED", "RED", "RED", "BLUE", "BLUE", "BLUE", "BLUE", "BLUE", "BLUE", "BLUE"] = 10 := rfl
    rw [h1, h2, h3]
    norm_num
  · exact (get_color_probability_spec
      ["RED", "RED", "RED", "BLUE", "BLUE", "BLUE", "BLUE", "BLUE", "BLUE", "BLUE"]
      "PURPLE").2 (by decide) (by decide)

/-- Claim C10: the variance operation returns the sample variance
(denominator `k - 1`, not `k`) of the per-token counts when the table
has at least two distinct tokens, and `0` when it has fewer than two. -/
theorem get_color_variance_spec (colors : List String) :
    ((counterKeys colors).length ≤ 1 → get_color_variance colors = 0) ∧
    (1 < (counterKeys colors).length →
      get_color_variance colors =
        ((counterKeys colors).map (fun c => ((colors.count c : ℚ) -
            ((counterKeys colors).map (fun c => (colors.count c : ℚ))).sum /
              ((counterKeys colors).length : ℚ)) ^ 2)).sum /
          (((counterKeys colors).length : ℚ) - 1)) := by
  constructor
  · intro h
    unfold get_color_variance
    rw [if_neg (by rw [List.length_map]; omega)]
  · intro h
    unfold get_color_variance statistics_variance
    rw [if_pos (by rw [List.length_map]; exact h)]
    simp only [List.length_map, List.map_map, Function.comp_def]

/-- Witness for `get_color_variance_spec`: for counts `[2, 2]` the
variance is 0, for a single distinct token it is 0, and for counts
`[1, 2]` it is the sample value `1/2` (the population value would be
`1/4`). -/
theorem get_color_variance_spec_witness :
    get_color_variance ["A", "A", "B", "B"] = 0 ∧
    get_color_variance ["A", "A"] = 0 ∧
    get_color_variance ["A", "B", "B"] = 1 / 2 := by
  refine ⟨?_, ?_, ?_⟩
  · have h := (get_color_variance_spec ["A", "A", "B", "B"]).2 (by decide)
    rw [h]
    have hk : counterKeys ["A", "A", "B", "B"] = ["A", "B"] := rfl
    have hA : List.count "A" ["A", "A", "B", "B"] = 2 := rfl
    have hB : List.count "B" ["A", "A", "B", "B"] = 2 := rfl
    rw [hk]
    norm_num [hA, hB]
  · exact (get_color_variance_spec ["A", "A"]).1 (by decide)
  · have h := (get_color_variance_spec ["A", "B", "B"]).2 (by decide)
    rw [h]
    have hk : counterKeys ["A", "B", "B"] = ["A", "B"] := rfl
    have hA : List.count "A" ["A", "B", "B"] = 1 := rfl
    have hB : List.count "B" ["A", "B", "B"] = 2 := rfl
    rw [hk]
    norm_num [hA, hB]

theorem fibLoop_succ (k : Nat) : ∀ a b t : Nat,
    fibLoop (k + 1) (a, b, t) =
      ((fibLoop k (a, b, t)).2.1,
       (fibLoop k (a, b, t)).1 + (fibLoop k (a, b, t)).2.1,
       (fibLoop k (a, b, t)).2.2 + ((fibLoop k (a, b, t)).1 + (fibLoop k (a, b, t)).2.1)) := by
  induction k with
  | zero => intro a b t; rfl
  | succ k ih =>
    intro a b t
    show fibLoop (k + 1) (b, a + b, t + (a + b)) = _
    rw [ih]
    rfl

theorem fibLoop_closed (k : Nat) :
    fibLoop k (0, 1, 1) =
      (Nat.fib k, Nat.fib (k + 1), ∑ i ∈ Finset.range (k + 1), Nat.fib (i + 1)) := by
  induction k with
  | zero => simp [fibLoop]
  | succ k ih =>
    rw [fibLoop_succ, ih]
    have hfib : Nat.fib (k + 2) = Nat.fib k + Nat.fib (k + 1) := Nat.fib_add_two
    rw [Finset.sum_range_succ _ (k + 1), hfib]

/-- Claim C6: for every integer `n`, `sum_fibonacci n` is the sum of the
first `n` Fibonacci numbers under the convention `F(1) = F(2) = 1`
(`0` for `n ≤ 0`); in particular `sum_fibonacci 1 = 1`,
`sum_fibonacci 2 = 2`, `sum_fibonacci 0 = 0`, and the value at the
default argument `n = 50` is the sum of the first 50. -/
theorem sum_fibonacci_spec (n : Int) :
    sum_fibonacci n = ((∑ i ∈ Finset.range n.toNat, Nat.fib (i + 1) : Nat) : Int) ∧
    sum_fibonacci 1 = 1 ∧ sum_fibonacci 2 = 2 ∧ sum_fibonacci 0 = 0 ∧
    sum_fibonacci_default = ((∑ i ∈ Finset.range 50, Nat.fib (i + 1) : Nat) : Int) := by
  have key : ∀ m : Int,
      sum_fibonacci m = ((∑ i ∈ Finset.range m.toNat, Nat.fib (i + 1) : Nat) : Int) := by
    intro m
    unfold sum_fibonacci
    by_cases hm : m ≤ 0
    · rw [if_pos hm, Int.toNat_of_nonpos hm]
      simp
    · rw [if_neg hm, fibLoop_closed]
      have htn : (m - 1).toNat + 1 = m.toNat := by omega
      rw [htn]
  refine ⟨key n, rfl, rfl, rfl, ?_⟩
  have h := key 50
  rwa [show ((50 : Int).toNat) = 50 from rfl] at h

theorem recursive_search_base (numbers : List Int) (target : Int)
    {start stop : Int} (h : start > stop) :
    recursive_search numbers target start stop = -1 := by
  rw [recursive_search]
  exact if_pos h

theorem recursive_search_found (numbers : List Int) (target : Int)
    {start stop : Int} (h1 : ¬ start > stop)
    (h2 : numbers.getD ((start + stop) / 2).toNat 0 = target) :
    recursive_search numbers target start stop = (start + stop) / 2 := by
  rw [recursive_search, if_neg h1]
  show (if numbers.getD ((start + stop) / 2).toNat 0 = target then (start + stop) / 2
    else _) = _
  rw [if_pos h2]

theorem recursive_search_left (numbers : List Int) (target : Int)
    {start stop : Int} (h1 : ¬ start > stop)
    (h2 : ¬ numbers.getD ((start + stop) / 2).toNat 0 = target)
    (h3 : numbers.getD ((start + stop) / 2).toNat 0 > target) :
    recursive_search numbers target start stop =
      recursive_search numbers target start ((start + stop) / 2 - 1) := by
  rw [recursive_search, if_neg h1]
  show (if numbers.getD ((start + stop) / 2).toNat 0 = target then (start + stop) / 2
    else if numbers.getD ((start + stop) / 2).toNat 0 > target then
      recursive_search numbers target start ((start + stop) / 2 - 1)
    else recursive_search numbers target ((start + stop) / 2 + 1) stop) = _
  rw [if_neg h2, if_pos h3]

theorem recursive_search_right (numbers : List Int) (target : Int)
    {start stop : Int} (h1 : ¬ start > stop)
    (h2 : ¬ numbers.getD ((start + stop) / 2).toNat 0 = target)
    (h3 : ¬ numbers.getD ((start + stop) / 2).toNat 0 > target) :
    recursive_search numbers target start stop =
      recursive_search numbers target ((start + stop) / 2 + 1) stop := by
  rw [recursive_search, if_neg h1]
  show (if numbers.getD ((start + stop) / 2).toNat 0 = target then (start + stop) / 2
    else if numbers.getD ((start + stop) / 2).toNat 0 > target then
      recursive_search numbers target start ((start + stop) / 2 - 1)
    else recursive_search numbers target ((start + stop) / 2 + 1) stop) = _
  rw [if_neg h2, if_neg h3]

theorem recursive_search_sound (numbers : List Int) (target : Int) :
    ∀ (fuel : Nat) (start stop : Int), (stop + 1 - start).toNat ≤ fuel →
      0 ≤ start → stop < (numbers.length : Int) →
      recursive_search numbers target start stop ≠ -1 →
      ∃ i : Nat, (i : Int) = recursive_search numbers target start stop ∧
        i < numbers.length ∧ numbers.getD i 0 = target := by
  intro fuel
  induction fuel with
  | zero =>
    intro start stop hf h0 hlt hne
    exact absurd (recursive_search_base numbers target (by omega)) hne
  | succ fuel ih =>
    intro start stop hf h0 hlt hne
    by_cases hgt : start > stop
    · exact absurd (recursive_search_base numbers target hgt) hne
    · by_cases heq : numbers.getD ((start + stop) / 2).toNat 0 = target
      · rw [recursive_search_found numbers target hgt heq] at hne ⊢
        exact ⟨((start + stop) / 2).toNat, by omega, by omega, heq⟩
      · by_cases hgt2 : numbers.getD ((start + stop) / 2).toNat 0 > target
        · rw [recursive_search_left numbers target hgt heq hgt2] at hne ⊢
          exact ih start ((start + stop) / 2 - 1) (by omega) h0 (by omega) hne
        · rw [recursive_search_right numbers target hgt heq hgt2] at hne ⊢
          exact ih ((start + stop) / 2 + 1) stop (by omega) (by omega) hlt hne

theorem recursive_search_complete (numbers : List Int) (target : Int)
    (hmono : ∀ i j : Nat, i ≤ j → j < numbers.length →
      numbers.getD i 0 ≤ numbers.getD j 0) :
    ∀ (fuel : Nat) (start stop : Int), (stop + 1 - start).toNat ≤ fuel →
      0 ≤ start → stop < (numbers.length : Int) →
      (∃ i : Nat, start ≤ (i : Int) ∧ (i : Int) ≤ stop ∧ numbers.getD i 0 = target) →
      recursive_search numbers target start stop ≠ -1 := by
  intro fuel
  induction fuel with
  | zero =>
    intro start stop hf h0 hlt hex
    obtain ⟨i, hi1, hi2, _⟩ := hex
    omega
  | succ fuel ih =>
    intro start stop hf h0 hlt hex
    obtain ⟨i, hi1, hi2, hival⟩ := hex
    have hgt : ¬ start > stop := by omega
    by_cases heq : numbers.getD ((start + stop) / 2).toNat 0 = target
    · rw [recursive_search_found numbers target hgt heq]
      omega
    · by_cases hgt2 : numbers.getD ((start + stop) / 2).toNat 0 > target
      · rw [recursive_search_left numbers target hgt heq hgt2]
        refine ih start ((start + stop) / 2 - 1) (by omega) h0 (by omega)
          ⟨i, hi1, ?_, hival⟩
        by_contra hcon
        push_neg at hcon
        have hmle := hmono ((start + stop) / 2).toNat i (by omega) (by omega)
        rw [hival] at hmle
        omega
      · rw [recursive_search_right numbers target hgt heq hgt2]
        refine ih ((start + stop) / 2 + 1) stop (by omega) (by omega) hlt
          ⟨i, ?_, hi2, hival⟩
        by_contra hcon
        push_neg at hcon
        have hmle := hmono i ((start + stop) / 2).toNat (by omega) (by omega)
        rw [hival] at hmle
        omega

theorem sorted_getD_mono {numbers : List Int} (hs : List.Sorted (· ≤ ·) numbers) :
    ∀ i j : Nat, i ≤ j → j < numbers.length → numbers.getD i 0 ≤ numbers.getD j 0 := by
  intro i j hij hj
  rcases Nat.lt_or_ge i j with hlt | hge
  · rw [List.getD_eq_getElem _ _ (by omega), List.getD_eq_getElem _ _ hj]
    exact List.Sorted.rel_get_of_lt hs (a := ⟨i, by omega⟩) (b := ⟨j, hj⟩) hlt
  · have hij' : i = j := by omega
    subst hij'
    exact le_refl _

/-- Claim C1, counterexample: the demo search
`recursive_search([5,7,13,23,29,36,42,56,81,91], 29)` does not return 3
— the value 29 sits at 0-based index 4 of that list, and the search
returns 4. -/
theorem recursive_search_demo_not_three :
    recursive_search_default [5, 7, 13, 23, 29, 36, 42, 56, 81, 91] 29 ≠ 3 := by
  show recursive_search [5, 7, 13, 23, 29, 36, 42, 56, 81, 91] 29 0 (10 - 1) ≠ 3
  norm_num
  simp [recursive_search]

/-- Claim C1, amended (the demo search for 29 returns 4, the index at
which 29 occurs, not 3): on a list sorted ascending, the default call
(`start=0`, `end=len-1`) returns an index holding the target whenever
the target occurs and the sentinel -1 whenever it is absent; the base
case `start > stop` returns -1 (the midpoint is the floor-division
`(start + stop) / 2` in the definition); in particular the demo search
for 29 returns 4 and the search for the absent 100 returns -1. -/
theorem recursive_search_correct (numbers : List Int) (target : Int)
    (hsorted : List.Sorted (· ≤ ·) numbers) :
    (∀ start stop : Int, start > stop →
      recursive_search numbers target start stop = -1) ∧
    (target ∈ numbers → ∃ i : Nat, i < numbers.length ∧
      recursive_search_default numbers target = (i : Int) ∧
      numbers.getD i 0 = target) ∧
    (target ∉ numbers → recursive_search_default numbers target = -1) ∧
    recursive_search_default [5, 7, 13, 23, 29, 36, 42, 56, 81, 91] 29 = 4 ∧
    recursive_search_default [5, 7, 13, 23, 29, 36, 42, 56, 81, 91] 100 = -1 := by
  have hmono := sorted_getD_mono hsorted
  refine ⟨fun s e h => recursive_search_base numbers target h, ?_, ?_, ?_, ?_⟩
  · intro hmem
    obtain ⟨j, hj, hjval⟩ := List.getElem_of_mem hmem
    have hne : recursive_search numbers target 0 ((numbers.length : Int) - 1) ≠ -1 := by
      refine recursive_search_complete numbers target hmono numbers.length 0
        ((numbers.length : Int) - 1) (by omega) (by omega) (by omega)
        ⟨j, by omega, by omega, ?_⟩
      rw [List.getD_eq_getElem _ _ hj]
      exact hjval
    obtain ⟨i, hi1, hi2, hi3⟩ := recursive_search_sound numbers target numbers.length 0
      ((numbers.length : Int) - 1) (by omega) (by omega) (by omega) hne
    exact ⟨i, hi2, hi1.symm, hi3⟩
  · intro hmem
    by_contra hne
    obtain ⟨i, hi1, hi2, hi3⟩ := recursive_search_sound numbers target numbers.length 0
      ((numbers.length : Int) - 1) (by omega) (by omega) (by omega) hne
    refine hmem ?_
    rw [← hi3, List.getD_eq_getElem _ _ hi2]
    exact List.getElem_mem hi2
  · show recursive_search [5, 7, 13, 23, 29, 36, 42, 56, 81, 91] 29 0 (10 - 1) = 4
    norm_num
    simp [recursive_search]
  · show recursive_search [5, 7, 13, 23, 29, 36, 42, 56, 81, 91] 100 0 (10 - 1) = -1
    norm_num
    simp [recursive_search]

/-- Witness for `recursive_search_correct`: the demo list is sorted
ascending, and the demo search for 29 returns 4. -/
theorem recursive_search_correct_witness :
    List.Sorted (· ≤ ·) ([5, 7, 13, 23, 29, 36, 42, 56, 81, 91] : List Int) ∧
    recursive_search_default [5, 7, 13, 23, 29, 36, 42, 56, 81, 91] 29 = 4 :=
  ⟨by decide,
    (recursive_search_correct [5, 7, 13, 23, 29, 36, 42, 56, 81, 91] 29 (by decide)).2.2.2.1⟩
